import Mathlib

/-!
Gap analysis pipeline: a shallow embedding of `src/source/analysis.py`.

The repository analyses streaming viewing sessions: it filters sessions to one
provider, drops devices with a single session, computes inter-session gaps per
(device, content) group, bins the gap durations into 15-second ranges, and
classifies each device's subscription type from its gap-range frequencies.

Tables are embedded as `List`s of records.  Machine integers are `Nat`/`Int`
(timestamps are whole seconds, so every `gap_seconds` the source computes is an
integer and Python's `int()` truncation on `max_gap` is the identity).  The
`ad_gap_proportion` float is embedded as an exact rational; the source rounds
it to 3 decimals only when emitting the record, which is display-only and is
abstracted away here.  Fallible stages return `Except`/`Option`.
-/

/-- One row of the input table, with the columns the core pipeline touches
(`application`, `tv_id`, `content_id`, `start_time`, `end_time`, `duration`,
`title`, `season_id`).  Timestamps are kept as raw strings, exactly as loaded:
the source sorts on the raw string and only then strips and parses it. -/
structure Session where
  application : String
  tv_id : String
  content_id : String
  start_time : String
  end_time : String
  duration : String
  title : String
  season_id : String
deriving Repr, DecidableEq

/-- Whitespace characters removed by Python's `str.strip()`. -/
def isPySpace (c : Char) : Bool :=
  c = ' ' || c = '\t' || c = '\n' || c = '\r'

/-- Python `str.strip()`: drop leading and trailing whitespace
(models the `.str.strip()` calls in `_create_gap_analysis_df`). -/
def pyStrip (s : String) : String :=
  ⟨((s.data.dropWhile isPySpace).reverse.dropWhile isPySpace).reverse⟩

def splitOnCharAux (c : Char) : List Char → List Char → List (List Char)
  | [], acc => [acc.reverse]
  | x :: xs, acc =>
    if x = c then acc.reverse :: splitOnCharAux c xs []
    else splitOnCharAux c xs (x :: acc)

/-- Python `str.split(c)` for a one-character separator. -/
def splitOnChar (c : Char) (s : List Char) : List (List Char) :=
  splitOnCharAux c s []

/-- Parse a non-empty all-digit character list as a decimal number
(Python `int(...)` restricted to the digit strings that occur here). -/
def digitsToNat (cs : List Char) : Option Nat :=
  if cs ≠ [] ∧ cs.all (fun c => c.isDigit) then
    some (cs.foldl (fun n c => 10 * n + (c.toNat - 48)) 0)
  else none

/-- `pd.to_datetime`, restricted to the `"YYYY-MM-DD HH:MM:SS"` timestamps the
pipeline consumes, returning whole seconds on an order-preserving linear
calendar (months of 31 days, years of 12 such months).  The encoding is
strictly monotone in (year, month, day, hour, minute, second) and differences
between timestamps on the same day are exact elapsed seconds.  Any other shape
parses to `none`, modelling the parse failure `pd.to_datetime` raises. -/
def parseTs (s : String) : Option Int :=
  match splitOnChar ' ' s.data with
  | [d, t] =>
    match splitOnChar '-' d, splitOnChar ':' t with
    | [y, mo, da], [h, mi, se] =>
      match digitsToNat y, digitsToNat mo, digitsToNat da,
            digitsToNat h, digitsToNat mi, digitsToNat se with
      | some y, some mo, some da, some h, some mi, some se =>
        some (Int.ofNat (((((y * 12 + mo) * 31 + da) * 24 + h) * 60 + mi) * 60 + se))
      | _, _, _, _, _, _ => none
    | _, _ => none
  | _ => none

/-- `_create_session_id_col`: `tv_content_id = str(tv_id) + '_' + str(content_id)`. -/
def sessionKey (s : Session) : String :=
  s.tv_id ++ "_" ++ s.content_id

/-- Worker for `uniqueList`: keep the elements that are not in `seen`,
recording each kept element. -/
def uniqueAux {α : Type} [DecidableEq α] (seen : List α) : List α → List α
  | [] => []
  | x :: xs => if x ∈ seen then uniqueAux seen xs else x :: uniqueAux (x :: seen) xs

/-- `pandas.unique` / `.unique()`: the distinct elements of a list in order of
first appearance. -/
def uniqueList {α : Type} [DecidableEq α] (l : List α) : List α :=
  uniqueAux [] l

instance {ε α : Type} [DecidableEq ε] [DecidableEq α] : DecidableEq (Except ε α) :=
  fun x y =>
    match x, y with
    | .error a, .error b =>
      if h : a = b then isTrue (by rw [h]) else isFalse (fun hc => h (Except.error.inj hc))
    | .ok a, .ok b =>
      if h : a = b then isTrue (by rw [h]) else isFalse (fun hc => h (Except.ok.inj hc))
    | .error _, .ok _ => isFalse (fun hc => Except.noConfusion hc)
    | .ok _, .error _ => isFalse (fun hc => Except.noConfusion hc)

/-- The rows of `df` whose `tv_content_id` equals `k`
(the mask `df[df['tv_content_id'] == value]`). -/
def groupOf (df : List Session) (k : String) : List Session :=
  df.filter (fun s => sessionKey s = k)

/-- Python's string `<`: lexicographic comparison of code points. -/
def charListLt : List Char → List Char → Bool
  | [], [] => false
  | [], _ :: _ => true
  | _ :: _, [] => false
  | a :: as, b :: bs =>
    if a.toNat < b.toNat then true
    else if b.toNat < a.toNat then false
    else charListLt as bs

/-- Python's string `<=`: lexicographic comparison of code points. -/
def charListLe : List Char → List Char → Bool
  | [], _ => true
  | _ :: _, [] => false
  | a :: as, b :: bs =>
    if a.toNat < b.toNat then true
    else if b.toNat < a.toNat then false
    else charListLe as bs

def pyStrLt (s t : String) : Prop := charListLt s.data t.data = true

def pyStrLe (s t : String) : Prop := charListLe s.data t.data = true

instance : DecidableRel pyStrLt := fun s t =>
  inferInstanceAs (Decidable (charListLt s.data t.data = true))

instance : DecidableRel pyStrLe := fun s t =>
  inferInstanceAs (Decidable (charListLe s.data t.data = true))

theorem charListLe_total (as bs : List Char) :
    charListLe as bs = true ∨ charListLe bs as = true := by
  induction as generalizing bs with
  | nil => exact Or.inl rfl
  | cons a as ih =>
    cases bs with
    | nil => exact Or.inr rfl
    | cons b bs =>
      by_cases h₁ : a.toNat < b.toNat
      · exact Or.inl (by simp [charListLe, h₁])
      · by_cases h₂ : b.toNat < a.toNat
        · exact Or.inr (by simp [charListLe, h₁, h₂])
        · rcases ih bs with h | h
          · exact Or.inl (by simp [charListLe, h₁, h₂, h])
          · exact Or.inr (by simp [charListLe, h₁, h₂, h])

theorem charListLe_trans : ∀ (as bs cs : List Char), charListLe as bs = true →
    charListLe bs cs = true → charListLe as cs = true
  | [], _, _, _, _ => rfl
  | _ :: _, [], _, h₁, _ => by simp [charListLe] at h₁
  | _ :: _, _ :: _, [], _, h₂ => by simp [charListLe] at h₂
  | a :: as, b :: bs, c :: cs, h₁, h₂ => by
    simp only [charListLe] at h₁ h₂ ⊢
    split_ifs at h₁ h₂ ⊢ <;>
      first
        | rfl
        | exact Bool.noConfusion h₁
        | exact Bool.noConfusion h₂
        | omega
        | exact charListLe_trans as bs cs h₁ h₂

/-- The sort key of `sort_values(by='start_time', ascending=True)`: the raw
(unstripped, unparsed) `start_time` strings compared as Python compares
strings, by code points. -/
def startLe (a b : Session) : Prop :=
  pyStrLe a.start_time b.start_time

instance : DecidableRel startLe := fun a b =>
  inferInstanceAs (Decidable (pyStrLe a.start_time b.start_time))

instance : IsTotal Session startLe :=
  ⟨fun a b => charListLe_total a.start_time.data b.start_time.data⟩

instance : IsTrans Session startLe :=
  ⟨fun _ _ _ h₁ h₂ => charListLe_trans _ _ _ h₁ h₂⟩

/-- `sort_values(by='start_time', ascending=True)` on one group. -/
def sortGroup (g : List Session) : List Session :=
  List.insertionSort startLe g

/-- Apply a fallible column operation to every row; the first failure fails
the whole column (as `pd.to_datetime` does when any entry is malformed). -/
def mapOpt {α β : Type} (f : α → Option β) : List α → Option (List β)
  | [] => some []
  | x :: xs =>
    match f x, mapOpt f xs with
    | some y, some ys => some (y :: ys)
    | _, _ => none

/-- One row of the gap-analysis table: the session columns the source keeps,
with parsed timestamps and the `gap_seconds` column.  `gap_seconds` is `none`
for the first row of a group (`shift()` has no predecessor there). -/
structure GapRow where
  tv_content_id : String
  tv_id : String
  content_id : String
  start_time : Int
  end_time : Int
  gap_seconds : Option Int
deriving Repr, DecidableEq

/-- `sub_df['gap_vs_previous_session'] = start_time - end_time.shift()` turned
into rows: walk the sorted sessions together with their parsed start/end
columns, carrying the previous row's end time. -/
def mkGapRows : List Session → List Int → List Int → Option Int → List GapRow
  | [], _, _, _ => []
  | _ :: _, [], _, _ => []
  | _ :: _, _ :: _, [], _ => []
  | s :: ss, st :: sts, en :: ens, prevEnd =>
    { tv_content_id := sessionKey s
      tv_id := s.tv_id
      content_id := s.content_id
      start_time := st
      end_time := en
      gap_seconds := prevEnd.map (fun pe => st - pe) }
      :: mkGapRows ss sts ens (some en)

/-- The per-group body of `_create_gap_analysis_df`: sort by the raw
`start_time` string, strip and parse both timestamp columns, compute the gap
column.  `none` models the fatal parse error. -/
def processGroup (g : List Session) : Option (List GapRow) :=
  let srt := sortGroup g
  match mapOpt (fun s => parseTs (pyStrip s.start_time)) srt,
        mapOpt (fun s => parseTs (pyStrip s.end_time)) srt with
  | some starts, some ends => some (mkGapRows srt starts ends none)
  | _, _ => none

/-- Process the groups in order; the first malformed timestamp aborts the run
(`pd.to_datetime` raising is fatal for the whole run). -/
def processGroups : List (List Session) → Except String (List (List GapRow))
  | [] => .ok []
  | g :: gs =>
    match processGroup g with
    | none => .error "time data parse error"
    | some out =>
      match processGroups gs with
      | .error e => .error e
      | .ok outs => .ok (out :: outs)

/-- The sub-frames the gap-analysis loop keeps: one group per distinct
`tv_content_id` in order of first appearance, retaining only the groups with
more than one row (`if len(sub_df) > 1`). -/
def bigGroupsOf (df : List Session) : List (List Session) :=
  ((uniqueList (df.map sessionKey)).map (fun k => groupOf df k)).filter
    (fun g => 1 < g.length)

/-- `_create_gap_analysis_df`: loop over the distinct `tv_content_id` values in
order of appearance, keep the groups with more than one row, process each, and
concatenate.  `pd.concat` raises `ValueError` when the list of sub-frames is
empty; that error is modelled by the dedicated message. -/
def createGapAnalysisDf (df : List Session) : Except String (List GapRow) :=
  match processGroups (bigGroupsOf df) with
  | .error e => .error e
  | .ok [] => .error "No objects to concatenate"
  | .ok subs => .ok subs.flatten

/-! ## Gap binner (`_create_gap_frequency_df`) -/

/-- One row of the gap-frequency table: `(tv_id, gap_range, frequency)`. -/
structure FreqRow where
  tv_id : String
  gap_range : String
  frequency : Nat
deriving Repr, DecidableEq

/-- `Series.max()` on a list of integers (`none` on an empty column, where
pandas yields `NaN`). -/
def listMax : List Int → Option Int
  | [] => none
  | x :: xs =>
    match listMax xs with
    | none => some x
    | some m => some (max x m)

/-- The `max_gap` actually used: the maximum non-null gap, replaced by the
default ceiling 60 when it is missing (`NaN`) or negative. -/
def effectiveMaxGap (gaps : List Int) : Int :=
  match listMax gaps with
  | none => 60
  | some m => if m < 0 then 60 else m

/-- `list(range(0, int(max_gap) + 15, 15))`.  The gaps are whole seconds, so
`int()` truncation is the identity on the non-negative `maxGap` used here. -/
def binEdges (maxGap : Int) : List Nat :=
  (List.range ((maxGap.toNat + 15 + 14) / 15)).map (fun i => 15 * i)

/-- The f-string label `f"{bin_edges[i]}-{bin_edges[i+1]}"`. -/
def mkLabel (lo hi : Nat) : String :=
  ⟨Nat.toDigits 10 lo ++ '-' :: Nat.toDigits 10 hi⟩

/-- `gap_labels`: one label per consecutive pair of edges. -/
def mkLabels : List Nat → List String
  | lo :: hi :: rest => mkLabel lo hi :: mkLabels (hi :: rest)
  | _ => []

/-- `pd.cut(gap_seconds, bins=bin_edges, right=False, include_lowest=True)`,
as an interval index: the index `i` of the half-open interval
`[edges[i], edges[i+1])` containing `g`, or `none` when `g` lies below the
first edge or at/above the last edge (pandas marks such values `NaN`;
`include_lowest` only affects values equal to the first edge, which
`right=False` already includes). -/
def cutIndexAux : List Nat → Int → Nat → Option Nat
  | lo :: hi :: rest, g, i =>
    if (lo : Int) ≤ g ∧ g < (hi : Int) then some i
    else cutIndexAux (hi :: rest) g (i + 1)
  | _, _, _ => none

def cutIndex (edges : List Nat) (g : Int) : Option Nat :=
  cutIndexAux edges g 0

/-- The lexicographic order `groupby(['tv_id', 'gap_range'], sort=True)` sorts
group keys by: `tv_id` as a string, then `gap_range` in category order (which
is the order of the bin labels, recorded here as the bin index). -/
def keyLe (a b : String × Nat) : Prop :=
  pyStrLt a.1 b.1 ∨ (a.1 = b.1 ∧ a.2 ≤ b.2)

instance : DecidableRel keyLe := fun a b =>
  inferInstanceAs (Decidable (pyStrLt a.1 b.1 ∨ (a.1 = b.1 ∧ a.2 ≤ b.2)))

/-- `_create_gap_frequency_df`: drop null gaps, determine the effective
maximum, build the 15-second bin edges and labels, cut every gap into its bin
(rows whose gap lies in no bin get `NaN` and are dropped by the groupby), and
count occurrences per `(tv_id, gap_range)` key, keys sorted as pandas
`groupby(sort=True)` sorts them.  Only non-empty combinations are emitted. -/
def createGapFrequencyDf (gapDf : List GapRow) : List FreqRow :=
  let clean : List (String × Int) :=
    gapDf.filterMap (fun r => r.gap_seconds.map (fun g => (r.tv_id, g)))
  let maxGap := effectiveMaxGap (clean.map (fun p => p.2))
  let edges := binEdges maxGap
  let labels := mkLabels edges
  let tagged : List (String × Nat) :=
    clean.filterMap (fun p => (cutIndex edges p.2).map (fun i => (p.1, i)))
  let keys := List.insertionSort keyLe (uniqueList tagged)
  keys.map (fun k =>
    { tv_id := k.1
      gap_range := labels.getD k.2 ""
      frequency := tagged.count k })

/-! ## Subscription classifier (`categorize_subscription_types`) -/

/-- `_extract_upper_bound`: `int(gap_range.split('-')[1])`.  The labels built
by the binner always have the shape `"<lo>-<hi>"`, on which this returns `hi`;
the `getD` defaults are unreachable there (Python would raise instead). -/
def extractUpperBound (s : String) : Nat :=
  (digitsToNat ((splitOnChar '-' s.data).getD 1 [])).getD 0

/-- The `is_ad_gap` column: `gap_upper_bound <= 60`. -/
def isAdGap (r : FreqRow) : Prop :=
  extractUpperBound r.gap_range ≤ 60

instance : DecidablePred isAdGap := fun r =>
  inferInstanceAs (Decidable (extractUpperBound r.gap_range ≤ 60))

/-- The descending-frequency order used by `nlargest(3, 'frequency')` with the
default `keep='first'`: larger frequencies first, equal frequencies kept in
row order (a stable sort realises exactly that tie-break). -/
def freqGe (a b : FreqRow) : Prop :=
  b.frequency ≤ a.frequency

instance : DecidableRel freqGe := fun a b =>
  inferInstanceAs (Decidable (b.frequency ≤ a.frequency))

instance : IsTotal FreqRow freqGe :=
  ⟨fun a b => (Nat.le_total b.frequency a.frequency).elim Or.inl Or.inr⟩

instance : IsTrans FreqRow freqGe :=
  ⟨fun _ _ _ h₁ h₂ => le_trans h₂ h₁⟩

/-- One record of `categorize_subscription_types`'s output table.
`ad_gap_proportion` carries the exact value computed by the source
(`ad_gaps / total_gaps if total_gaps > 0 else 0`); the source additionally
rounds it to 3 decimals when building the emitted dict, a display detail
abstracted away in this embedding. -/
structure Verdict where
  tv_id : String
  subscription_type : String
  total_gaps : Nat
  ad_like_gaps : Nat
  long_gaps : Nat
  ad_gap_proportion : ℚ
  most_common_ranges : String
deriving Repr, DecidableEq

/-- The loop body of `categorize_subscription_types` for one `tv_id`. -/
def mkVerdict (freq : List FreqRow) (adThreshold : Nat) (adFrequencyThreshold : ℚ)
    (tv : String) : Verdict :=
  let td := freq.filter (fun r => r.tv_id = tv)
  let total : Nat := (td.map (fun r => r.frequency)).sum
  let ad : Nat := ((td.filter (fun r => isAdGap r)).map (fun r => r.frequency)).sum
  let lng : Nat := ((td.filter (fun r => ¬ isAdGap r)).map (fun r => r.frequency)).sum
  let prop : ℚ := if 0 < total then mkRat ad total else 0
  let mostCommon := ((List.insertionSort freqGe td).take 3).map (fun r => r.gap_range)
  let stype :=
    if total = 0 then "insufficient_data"
    else if adThreshold ≤ ad ∧ adFrequencyThreshold ≤ prop then "ad_supported"
    else if prop < mkRat 3 10 ∧ ad < lng then "ad_free"
    else if ad < 2 then "ad_free"
    else "mixed_or_uncertain"
  { tv_id := tv
    subscription_type := stype
    total_gaps := total
    ad_like_gaps := ad
    long_gaps := lng
    ad_gap_proportion := prop
    most_common_ranges := String.intercalate ", " (mostCommon.take 3) }

/-- `categorize_subscription_types(ad_threshold, ad_frequency_threshold)`:
one verdict per distinct `tv_id` of the frequency table, in order of first
appearance.  The function is total: no input raises. -/
def categorizeSubscriptionTypes (freq : List FreqRow) (adThreshold : Nat)
    (adFrequencyThreshold : ℚ) : List Verdict :=
  (uniqueList (freq.map (fun r => r.tv_id))).map
    (mkVerdict freq adThreshold adFrequencyThreshold)

/-! ## The whole pipeline, as `main.py` drives it -/

/-- The provider filter `df[df[application_column].isin([streaming_service])]`. -/
def filteredDf (data : List Session) (service : String) : List Session :=
  data.filter (fun s => s.application = service)

/-- The number of sessions of device `tv` in the provider-filtered table:
the `count` column that `_tv_counts_df` computes and `_merge_tv_counts`
merges in. -/
def tvCount (data : List Session) (service : String) (tv : String) : Nat :=
  ((filteredDf data service).filter (fun s => s.tv_id = tv)).length

/-- `_merge_tv_counts`: keep only the rows whose device has `count > 1`. -/
def retainedDf (data : List Session) (service : String) : List Session :=
  (filteredDf data service).filter (fun s => 1 < tvCount data service s.tv_id)

/-- `GapAnalysis.__init__` followed by `categorize_subscription_types`:
filter to the provider (`isin([streaming_service])`), keep the rows of devices
with more than one session in the filtered table (`_merge_tv_counts`), run the
gap analysis, the binner, and the classifier.  `main.py` calls it with the
default thresholds `3` and `0.6`. -/
def runPipeline (data : List Session) (service : String) (adThreshold : Nat)
    (adFrequencyThreshold : ℚ) :
    Except String (List GapRow × List FreqRow × List Verdict) :=
  match createGapAnalysisDf (retainedDf data service) with
  | .error e => .error e
  | .ok gaps =>
    let freq := createGapFrequencyDf gaps
    .ok (gaps, freq, categorizeSubscriptionTypes freq adThreshold adFrequencyThreshold)

/-! ## Spec-side comparison definitions

These definitions follow the specification's words rather than the source, so
that the source-derived definitions above can be compared against them. -/

/-- The per-device quantities named by the spec (§4.4 step 2), recomputed
directly from a frequency table: the rows of one device. -/
def tvRows (freq : List FreqRow) (tv : String) : List FreqRow :=
  freq.filter (fun r => r.tv_id = tv)

/-- Spec §4.4 step 2: `total_gaps` = sum of frequencies across the device's bins. -/
def totalGapsOf (freq : List FreqRow) (tv : String) : Nat :=
  ((tvRows freq tv).map (fun r => r.frequency)).sum

/-- Spec §4.4 steps 1–2: `ad_gaps` = sum of frequencies of the ad-like bins,
a bin being ad-like iff the upper bound parsed from its range label is ≤ 60. -/
def adGapsOf (freq : List FreqRow) (tv : String) : Nat :=
  (((tvRows freq tv).filter (fun r => isAdGap r)).map (fun r => r.frequency)).sum

/-- Spec §4.4 step 2: `long_gaps` = sum of frequencies of the non-ad-like bins. -/
def longGapsOf (freq : List FreqRow) (tv : String) : Nat :=
  (((tvRows freq tv).filter (fun r => ¬ isAdGap r)).map (fun r => r.frequency)).sum

/-- Spec §4.4 step 2: `ad_gap_proportion = ad_gaps / total_gaps`
(0 if `total_gaps` is 0).  `mkRat` is exact rational division. -/
def adGapProportionOf (freq : List FreqRow) (tv : String) : ℚ :=
  if 0 < totalGapsOf freq tv then mkRat (adGapsOf freq tv) (totalGapsOf freq tv) else 0

/-- Spec §4.4 step 3, verbatim: the decision cascade in its exact priority
order (`mkRat 3 10` is the rational 0.3). -/
def specDecision (total ad lng : Nat) (prop : ℚ) (adThreshold : Nat)
    (adFrequencyThreshold : ℚ) : String :=
  if total = 0 then "insufficient_data"
  else if adThreshold ≤ ad ∧ adFrequencyThreshold ≤ prop then "ad_supported"
  else if prop < mkRat 3 10 ∧ ad < lng then "ad_free"
  else if ad < 2 then "ad_free"
  else "mixed_or_uncertain"

/-- The chronological sort key the spec prescribes for §4.2 (sort ascending by
`start_time` as a timestamp): compare the parsed, trimmed timestamps. -/
def chronLe (a b : Session) : Prop :=
  (parseTs (pyStrip a.start_time)).getD 0 ≤ (parseTs (pyStrip b.start_time)).getD 0

instance : DecidableRel chronLe := fun a b =>
  inferInstanceAs (Decidable ((parseTs (pyStrip a.start_time)).getD 0 ≤
    (parseTs (pyStrip b.start_time)).getD 0))

/-- The spec's reading of the gap calculator for one group: sort the sessions
chronologically (by parsed start time), then compute the adjacent gaps exactly
as the source does.  Differs from `processGroup` only in the sort key. -/
def specProcessGroupChron (g : List Session) : Option (List GapRow) :=
  let srt := List.insertionSort chronLe g
  match mapOpt (fun s => parseTs (pyStrip s.start_time)) srt,
        mapOpt (fun s => parseTs (pyStrip s.end_time)) srt with
  | some starts, some ends => some (mkGapRows srt starts ends none)
  | _, _ => none

/-! ## Concrete inputs used by the closed theorems and witnesses -/

/-- Build a session row (the `duration`, `title`, `season_id` columns do not
influence the core computation). -/
def mkS (app tv c st en : String) : Session :=
  { application := app, tv_id := tv, content_id := c, start_time := st,
    end_time := en, duration := "", title := "", season_id := "" }

/-- Scenario A of the spec: one device, sessions 10:00:00–10:05:00 and
10:05:30–10:10:00, a single inter-session gap of exactly 30 seconds. -/
def scenarioA : List Session :=
  [ mkS "Netflix" "tv1" "c1" "2024-01-01 10:00:00" "2024-01-01 10:05:00",
    mkS "Netflix" "tv1" "c1" "2024-01-01 10:05:30" "2024-01-01 10:10:00" ]

/-- A single session for the requested provider: its device has count 1. -/
def singleSessionData : List Session :=
  [ mkS "Netflix" "a" "c" "2024-01-01 10:00:00" "2024-01-01 10:05:00" ]

/-- One device with two sessions but on different content items: the device
survives the count filter, yet every `(device, content)` group has size 1. -/
def twoContentsData : List Session :=
  [ mkS "Netflix" "a" "c1" "2024-01-01 10:00:00" "2024-01-01 10:05:00",
    mkS "Netflix" "a" "c2" "2024-01-01 11:00:00" "2024-01-01 11:05:00" ]

/-- Overlapping sessions: the second session starts 5 minutes before the first
one ends, so its gap is −300 seconds. -/
def overlapData : List Session :=
  [ mkS "Netflix" "t1" "c" "2024-01-01 10:00:00" "2024-01-01 10:10:00",
    mkS "Netflix" "t1" "c" "2024-01-01 10:05:00" "2024-01-01 10:20:00" ]

/-- Two sessions whose raw `start_time` strings sort in the opposite order to
their timestamps: the first has a leading space (which the source strips only
after sorting), so as a string it sorts before the chronologically earlier
second session. -/
def whitespaceData : List Session :=
  [ mkS "Netflix" "tv1" "c" " 2024-01-02 10:00:00" " 2024-01-02 11:00:00",
    mkS "Netflix" "tv1" "c" "2024-01-01 10:00:00" "2024-01-01 11:00:00" ]

/-- One device with three 10-second gaps (four back-to-back sessions of the
same content): classified `ad_supported` at the default thresholds. -/
def threeShortGapsData : List Session :=
  [ mkS "Netflix" "tvb" "c1" "2024-01-01 10:00:00" "2024-01-01 10:05:00",
    mkS "Netflix" "tvb" "c1" "2024-01-01 10:05:10" "2024-01-01 10:10:00",
    mkS "Netflix" "tvb" "c1" "2024-01-01 10:10:10" "2024-01-01 10:15:00",
    mkS "Netflix" "tvb" "c1" "2024-01-01 10:15:10" "2024-01-01 10:20:00" ]

/-- A frequency table for one device with a tie in the bin frequencies,
exercising the `most_common_ranges` tie-break. -/
def tieFreqTable : List FreqRow :=
  [ ⟨"t", "0-15", 2⟩, ⟨"t", "15-30", 5⟩, ⟨"t", "30-45", 2⟩, ⟨"t", "45-60", 1⟩,
    ⟨"t", "60-75", 4⟩ ]

/-- A frequency table with 2 ad-like and 2 long gaps: the decision cascade
falls through to `mixed_or_uncertain` at the default thresholds. -/
def mixedFreqTable : List FreqRow :=
  [ ⟨"m", "0-15", 2⟩, ⟨"m", "60-75", 1⟩, ⟨"m", "600-615", 1⟩ ]

/-- Device `a` has exactly one session for the provider; device `b` has two
sessions of the same content with a 10-second gap. -/
def c6Data : List Session :=
  [ mkS "Netflix" "a" "c" "2024-01-01 09:00:00" "2024-01-01 09:30:00",
    mkS "Netflix" "b" "c1" "2024-01-01 10:00:00" "2024-01-01 10:05:00",
    mkS "Netflix" "b" "c1" "2024-01-01 10:05:10" "2024-01-01 10:10:00" ]

/-- The tables produced by the successful pipeline run on `c6Data`. -/
def c6Run : List GapRow × List FreqRow × List Verdict :=
  (runPipeline c6Data "Netflix" 3 (mkRat 6 10)).toOption.getD ([], [], [])

/-- The gap-analysis rows of the successful run on `scenarioA`. -/
def scenarioARows : List GapRow :=
  (createGapAnalysisDf scenarioA).toOption.getD []

/-! # Verification

Helper lemmas about the embedded operations, followed by one theorem per
claim of the specification review. -/

theorem mem_uniqueAux {α : Type} [DecidableEq α] (seen l : List α) (x : α) :
    x ∈ uniqueAux seen l ↔ x ∈ l ∧ x ∉ seen := by
  induction l generalizing seen with
  | nil => simp [uniqueAux]
  | cons y ys ih =>
    by_cases hy : y ∈ seen
    · rw [uniqueAux, if_pos hy, ih]
      constructor
      · rintro ⟨hx, hs⟩
        exact ⟨List.mem_cons_of_mem _ hx, hs⟩
      · rintro ⟨hx, hs⟩
        rcases List.mem_cons.mp hx with rfl | hx
        · exact absurd hy hs
        · exact ⟨hx, hs⟩
    · rw [uniqueAux, if_neg hy]
      constructor
      · intro hx
        rcases List.mem_cons.mp hx with rfl | hx
        · exact ⟨List.mem_cons_self _ _, hy⟩
        · have h := (ih _).mp hx
          exact ⟨List.mem_cons_of_mem _ h.1,
            fun hs => h.2 (List.mem_cons_of_mem _ hs)⟩
      · rintro ⟨hx, hs⟩
        rcases List.mem_cons.mp hx with rfl | hx
        · exact List.mem_cons_self _ _
        · by_cases hxy : x = y
          · subst hxy
            exact List.mem_cons_self _ _
          · refine List.mem_cons_of_mem _ ((ih _).mpr ⟨hx, ?_⟩)
            intro hmem
            rcases List.mem_cons.mp hmem with h | h
            · exact hxy h
            · exact hs h

theorem mem_uniqueList {α : Type} [DecidableEq α] (l : List α) (x : α) :
    x ∈ uniqueList l ↔ x ∈ l := by
  rw [uniqueList, mem_uniqueAux]
  simp

theorem nodup_uniqueAux {α : Type} [DecidableEq α] (seen l : List α) :
    (uniqueAux seen l).Nodup := by
  induction l generalizing seen with
  | nil => exact List.nodup_nil
  | cons y ys ih =>
    by_cases hy : y ∈ seen
    · rw [uniqueAux, if_pos hy]
      exact ih seen
    · rw [uniqueAux, if_neg hy]
      refine List.nodup_cons.mpr ⟨?_, ih _⟩
      intro hmem
      exact ((mem_uniqueAux _ _ _).mp hmem).2 (List.mem_cons_self _ _)

theorem nodup_uniqueList {α : Type} [DecidableEq α] (l : List α) :
    (uniqueList l).Nodup :=
  nodup_uniqueAux [] l

theorem mapOpt_eq {α β : Type} (f : α → Option β) :
    ∀ {l : List α} {l' : List β}, mapOpt f l = some l' →
      (∀ x ∈ l, (f x).isSome) ∧ ∀ d : β, l' = l.map (fun x => (f x).getD d)
  | [], l', h => by
    rw [mapOpt] at h
    injection h with h
    subst h
    exact ⟨by simp, by simp⟩
  | x :: xs, l', h => by
    rw [mapOpt] at h
    cases hfx : f x with
    | none => rw [hfx] at h; cases h
    | some y =>
      rw [hfx] at h
      cases hrec : mapOpt f xs with
      | none => rw [hrec] at h; cases h
      | some ys =>
        rw [hrec] at h
        injection h with h
        subst h
        obtain ⟨hall, hmap⟩ := mapOpt_eq f hrec
        refine ⟨?_, ?_⟩
        · intro z hz
          rcases List.mem_cons.mp hz with rfl | hz
          · simp [hfx]
          · exact hall z hz
        · intro d
          simp [hfx, ← hmap d]

theorem mkGapRows_mem : ∀ (ss : List Session) (sts ens : List Int)
    (pe : Option Int) (r : GapRow), r ∈ mkGapRows ss sts ens pe →
      ∃ s ∈ ss, r.tv_id = s.tv_id ∧ r.tv_content_id = sessionKey s
  | s :: ss, st :: sts, en :: ens, pe, r, hr => by
    rw [mkGapRows] at hr
    rcases List.mem_cons.mp hr with rfl | hr
    · exact ⟨s, List.mem_cons_self _ _, rfl, rfl⟩
    · obtain ⟨s', hs', h1, h2⟩ := mkGapRows_mem ss sts ens (some en) r hr
      exact ⟨s', List.mem_cons_of_mem _ hs', h1, h2⟩
  | [], _, _, _, r, hr => by rw [mkGapRows] at hr; cases hr
  | _ :: _, [], _, _, r, hr => by rw [mkGapRows] at hr; cases hr
  | _ :: _, _ :: _, [], _, r, hr => by rw [mkGapRows] at hr; cases hr

/-- **C1.** The claim states that the bin edges end at the first multiple of
15 *strictly exceeding* the maximum gap, that binning is exhaustive, and that
a device whose only gap is exactly 30 seconds gets `frequency = 1` in the bin
containing 30.  The code contradicts all three on Scenario A itself: with
`max_gap = 30` the edges are `[0, 15, 30]` (final edge *equal* to the
maximum), the cut assigns the 30-second gap to no bin, and the run produces an
*empty* frequency table and no verdict for the device. -/
theorem c1_gap_of_exactly_30s_is_dropped :
    binEdges 30 = [0, 15, 30] ∧
    cutIndex (binEdges 30) 30 = none ∧
    (runPipeline scenarioA "Netflix" 3 (mkRat 6 10)).toOption.map
      (fun x => (x.1.map (fun r => r.gap_seconds), x.2.1, x.2.2)) =
      some ([none, some 30], [], []) := by
  decide

/-- **C2.** The claim states that an empty provider-filtered set, a filtered
set with no multi-session device, and a retained set in which no
`(device, content)` group has two members all propagate as empty outputs
without an error.  In the code, each of the three reaches
`pd.concat(sub_dfs)` with an empty list, which raises `ValueError`; the
pipeline errors instead of returning empty tables. -/
theorem c2_empty_stage_raises_concat_error :
    runPipeline [] "Netflix" 3 (mkRat 6 10) = .error "No objects to concatenate" ∧
    runPipeline singleSessionData "Netflix" 3 (mkRat 6 10) =
      .error "No objects to concatenate" ∧
    runPipeline twoContentsData "Netflix" 3 (mkRat 6 10) =
      .error "No objects to concatenate" := by
  decide

/-- **C3, counterexample.** The claim states that a record with a negative
gap lands in the lowest bin with nonzero frequency and counts toward
`ad_gaps`.  On overlapping sessions producing a −300-second gap, the cut
assigns no bin (the value lies below the lowest edge 0), so the frequency
table and the verdict table are both empty: the gap appears in no bin and
contributes to no `ad_gaps`. -/
theorem c3_negative_gap_gets_no_bin :
    (createGapAnalysisDf (retainedDf overlapData "Netflix")).toOption.map
      (fun l => l.map (fun r => r.gap_seconds)) = some [none, some (-300)] ∧
    cutIndex (binEdges 60) (-300) = none ∧
    (runPipeline overlapData "Netflix" 3 (mkRat 6 10)).toOption.map
      (fun x => (x.2.1, x.2.2)) = some ([], []) := by
  decide

theorem listMax_eq_none_iff (l : List Int) : listMax l = none ↔ l = [] := by
  cases l with
  | nil => simp [listMax]
  | cons x xs =>
    rw [listMax]
    cases listMax xs <;> simp

theorem listMax_mem : ∀ {l : List Int} {m : Int}, listMax l = some m → m ∈ l
  | x :: xs, m, h => by
    rw [listMax] at h
    cases hrec : listMax xs with
    | none =>
      rw [hrec] at h
      injection h with h
      subst h
      exact List.mem_cons_self _ _
    | some m' =>
      rw [hrec] at h
      injection h with h
      subst h
      rcases max_choice x m' with hm | hm <;> rw [hm]
      · exact List.mem_cons_self _ _
      · exact List.mem_cons_of_mem _ (listMax_mem hrec)

theorem listMax_ge : ∀ {l : List Int} {m : Int}, listMax l = some m → ∀ x ∈ l, x ≤ m
  | x :: xs, m, h, z, hz => by
    rw [listMax] at h
    cases hrec : listMax xs with
    | none =>
      rw [hrec] at h
      injection h with h
      subst h
      rcases List.mem_cons.mp hz with rfl | hz
      · exact le_refl _
      · exact absurd hz (by simp [(listMax_eq_none_iff xs).mp hrec])
    | some m' =>
      rw [hrec] at h
      injection h with h
      subst h
      rcases List.mem_cons.mp hz with rfl | hz
      · exact le_max_left _ _
      · exact le_trans (listMax_ge hrec z hz) (le_max_right _ _)

theorem listMax_eq_of_mem_of_ge : ∀ {l : List Int} {m : Int}, m ∈ l →
    (∀ x ∈ l, x ≤ m) → listMax l = some m
  | x :: xs, m, hm, hge => by
    rw [listMax]
    cases hrec : listMax xs with
    | none =>
      have hxs : xs = [] := (listMax_eq_none_iff xs).mp hrec
      subst hxs
      rcases List.mem_cons.mp hm with rfl | hm
      · rfl
      · cases hm
    | some m' =>
      have h₁ : max x m' ≤ m := by
        refine max_le (hge x (List.mem_cons_self _ _)) ?_
        exact hge m' (List.mem_cons_of_mem _ (listMax_mem hrec))
      have h₂ : m ≤ max x m' := by
        rcases List.mem_cons.mp hm with rfl | hm
        · exact le_max_left _ _
        · exact le_trans (listMax_ge hrec m hm) (le_max_right _ _)
      show some (max x m') = some m
      rw [le_antisymm h₁ h₂]

theorem effectiveMaxGap_filter_nonneg (l : List Int) :
    effectiveMaxGap (l.filter (fun g => 0 ≤ g)) = effectiveMaxGap l := by
  cases hl : listMax l with
  | none =>
    rw [(listMax_eq_none_iff l).mp hl]
    rfl
  | some m =>
    by_cases hm : m < 0
    · have hf : l.filter (fun g => 0 ≤ g) = [] := by
        rw [List.filter_eq_nil_iff]
        intro a ha
        have := listMax_ge hl a ha
        simp only [decide_eq_true_eq]
        omega
      rw [effectiveMaxGap, effectiveMaxGap, hf, hl]
      simp [listMax, hm]
    · have hmem : m ∈ l.filter (fun g => 0 ≤ g) :=
        List.mem_filter.mpr ⟨listMax_mem hl, by simp only [decide_eq_true_eq]; omega⟩
      have hge : ∀ x ∈ l.filter (fun g => 0 ≤ g), x ≤ m := by
        intro x hx
        exact listMax_ge hl x (List.mem_filter.mp hx).1
      rw [effectiveMaxGap, effectiveMaxGap, hl, listMax_eq_of_mem_of_ge hmem hge]

theorem cutIndexAux_neg (edges : List Nat) (g : Int) (hg : g < 0) :
    ∀ i : Nat, cutIndexAux edges g i = none := by
  induction edges with
  | nil => intro i; rfl
  | cons lo rest ih =>
    intro i
    cases rest with
    | nil => rfl
    | cons hi rest' =>
      rw [cutIndexAux, if_neg]
      · exact ih (i + 1)
      · rintro ⟨h₁, -⟩
        have : (0 : Int) ≤ lo := Int.natCast_nonneg lo
        omega

theorem clean_of_filter_nonneg (rows : List GapRow) :
    (rows.filter (fun r => 0 ≤ r.gap_seconds.getD 0)).filterMap
        (fun r => r.gap_seconds.map (fun g => (r.tv_id, g))) =
      (rows.filterMap (fun r => r.gap_seconds.map (fun g => (r.tv_id, g)))).filter
        (fun p => 0 ≤ p.2) := by
  induction rows with
  | nil => rfl
  | cons r rs ih =>
    cases hg : r.gap_seconds with
    | none => simpa [List.filter_cons, List.filterMap_cons, hg] using ih
    | some g =>
      by_cases h : (0 : Int) ≤ g
      · simpa [List.filter_cons, List.filterMap_cons, hg, h] using ih
      · simpa [List.filter_cons, List.filterMap_cons, hg, h] using ih

theorem snd_map_filter_nonneg (clean : List (String × Int)) :
    ((clean.filter (fun p => 0 ≤ p.2)).map (fun p => p.2)) =
      (clean.map (fun p => p.2)).filter (fun g => 0 ≤ g) := by
  induction clean with
  | nil => rfl
  | cons p ps ih =>
    by_cases h : (0 : Int) ≤ p.2
    · simpa [List.filter_cons, h] using ih
    · simpa [List.filter_cons, h] using ih

theorem tagged_of_filter_nonneg (edges : List Nat) (clean : List (String × Int)) :
    ((clean.filter (fun p => 0 ≤ p.2)).filterMap
        (fun p => (cutIndex edges p.2).map (fun i => (p.1, i)))) =
      clean.filterMap (fun p => (cutIndex edges p.2).map (fun i => (p.1, i))) := by
  induction clean with
  | nil => rfl
  | cons p ps ih =>
    by_cases h : (0 : Int) ≤ p.2
    · cases hc : cutIndex edges p.2 with
      | none => simpa [List.filter_cons, List.filterMap_cons, h, hc] using ih
      | some i => simpa [List.filter_cons, List.filterMap_cons, h, hc] using ih
    · have hcut : cutIndex edges p.2 = none := cutIndexAux_neg edges p.2 (by omega) 0
      simpa [List.filter_cons, List.filterMap_cons, h, hcut] using ih

/-- **C3, amended.**  A negative `gap_seconds` lies below the lowest bin edge
0, so `pd.cut` assigns it no bin (`NaN`) and the groupby drops it: negative
gaps appear in no bin, contribute to no frequency and hence to no `ad_gaps`.
Formally, the binner's output is unchanged when every negative-gap record is
removed from its input (the effective `max_gap` is also unaffected, because a
negative maximum is replaced by the default 60 either way). -/
theorem c3_binner_drops_negative_gaps (rows : List GapRow) :
    createGapFrequencyDf (rows.filter (fun r => 0 ≤ r.gap_seconds.getD 0)) =
      createGapFrequencyDf rows := by
  simp only [createGapFrequencyDf]
  rw [clean_of_filter_nonneg, snd_map_filter_nonneg, effectiveMaxGap_filter_nonneg,
    tagged_of_filter_nonneg]

theorem mem_categorize {freq : List FreqRow} {adT : Nat} {adF : ℚ} {v : Verdict} :
    v ∈ categorizeSubscriptionTypes freq adT adF ↔
      ∃ tv ∈ uniqueList (freq.map (fun r => r.tv_id)), mkVerdict freq adT adF tv = v := by
  rw [categorizeSubscriptionTypes, List.mem_map]

theorem mkVerdict_tv_id (freq : List FreqRow) (adT : Nat) (adF : ℚ) (tv : String) :
    (mkVerdict freq adT adF tv).tv_id = tv := rfl

theorem mkVerdict_total (freq : List FreqRow) (adT : Nat) (adF : ℚ) (tv : String) :
    (mkVerdict freq adT adF tv).total_gaps = totalGapsOf freq tv := rfl

theorem mkVerdict_ad (freq : List FreqRow) (adT : Nat) (adF : ℚ) (tv : String) :
    (mkVerdict freq adT adF tv).ad_like_gaps = adGapsOf freq tv := rfl

theorem mkVerdict_long (freq : List FreqRow) (adT : Nat) (adF : ℚ) (tv : String) :
    (mkVerdict freq adT adF tv).long_gaps = longGapsOf freq tv := rfl

theorem mkVerdict_prop (freq : List FreqRow) (adT : Nat) (adF : ℚ) (tv : String) :
    (mkVerdict freq adT adF tv).ad_gap_proportion = adGapProportionOf freq tv := rfl

theorem mkVerdict_stype (freq : List FreqRow) (adT : Nat) (adF : ℚ) (tv : String) :
    (mkVerdict freq adT adF tv).subscription_type =
      specDecision (totalGapsOf freq tv) (adGapsOf freq tv) (longGapsOf freq tv)
        (adGapProportionOf freq tv) adT adF := rfl

theorem sum_map_filter_split {α : Type} (l : List α) (p : α → Prop) [DecidablePred p]
    (f : α → Nat) :
    ((l.filter (fun a => p a)).map f).sum + ((l.filter (fun a => ¬ p a)).map f).sum =
      (l.map f).sum := by
  induction l with
  | nil => rfl
  | cons a as ih =>
    by_cases h : p a
    · simp only [List.filter_cons, h, decide_eq_true_eq, List.map_cons, List.sum_cons]
      rw [if_pos (by simp [h]), if_neg (by simp [h])]
      simp only [List.map_cons, List.sum_cons]
      omega
    · simp only [List.filter_cons, List.map_cons, List.sum_cons]
      rw [if_neg (by simp [h]), if_pos (by simp [h])]
      simp only [List.map_cons, List.sum_cons]
      omega

theorem adGaps_le_total (freq : List FreqRow) (tv : String) :
    adGapsOf freq tv + longGapsOf freq tv = totalGapsOf freq tv :=
  sum_map_filter_split (tvRows freq tv) isAdGap (fun r => r.frequency)

/-- **C4.** For every verdict of the classifier, a bin is counted as ad-like
iff the upper bound parsed from its range label is ≤ 60 (`isAdGap`, used by
`adGapsOf`/`longGapsOf`), and the emitted `subscription_type` equals the
spec's decision cascade, evaluated in the spec's exact priority order on the
quantities recomputed from the device's frequency rows. -/
theorem c4_subscription_type_follows_spec_cascade (freq : List FreqRow) (adT : Nat)
    (adF : ℚ) (v : Verdict) (hv : v ∈ categorizeSubscriptionTypes freq adT adF) :
    v.subscription_type =
      specDecision (totalGapsOf freq v.tv_id) (adGapsOf freq v.tv_id)
        (longGapsOf freq v.tv_id) (adGapProportionOf freq v.tv_id) adT adF := by
  obtain ⟨tv, -, rfl⟩ := mem_categorize.mp hv
  rfl

/-- **C4, witness.**  On a device with 2 ad-like and 2 long gaps at the
default thresholds, the cascade reaches its final branch
(`mixed_or_uncertain`). -/
theorem c4_witness :
    (mkVerdict mixedFreqTable 3 (mkRat 6 10) "m") ∈
      categorizeSubscriptionTypes mixedFreqTable 3 (mkRat 6 10) ∧
    (mkVerdict mixedFreqTable 3 (mkRat 6 10) "m").subscription_type =
      specDecision (totalGapsOf mixedFreqTable "m") (adGapsOf mixedFreqTable "m")
        (longGapsOf mixedFreqTable "m") (adGapProportionOf mixedFreqTable "m")
        3 (mkRat 6 10) :=
  ⟨by decide, c4_subscription_type_follows_spec_cascade mixedFreqTable 3 (mkRat 6 10) _
    (by decide)⟩

/-- **C7.** For every verdict of the classifier, `total_gaps` equals
`ad_gaps + long_gaps`: the ad-like/non-ad-like bins partition the device's
rows, so their frequency sums add up to the total. -/
theorem c7_total_gaps_split (freq : List FreqRow) (adT : Nat) (adF : ℚ) (v : Verdict)
    (hv : v ∈ categorizeSubscriptionTypes freq adT adF) :
    v.total_gaps = v.ad_like_gaps + v.long_gaps := by
  obtain ⟨tv, -, rfl⟩ := mem_categorize.mp hv
  rw [mkVerdict_total, mkVerdict_ad, mkVerdict_long]
  exact (adGaps_le_total freq tv).symm

/-- **C7, witness.** -/
theorem c7_witness :
    (mkVerdict tieFreqTable 3 (mkRat 6 10) "t").total_gaps =
      (mkVerdict tieFreqTable 3 (mkRat 6 10) "t").ad_like_gaps +
        (mkVerdict tieFreqTable 3 (mkRat 6 10) "t").long_gaps :=
  c7_total_gaps_split tieFreqTable 3 (mkRat 6 10) _ (by decide)

/-- **C8.** For every verdict of the classifier, `ad_gap_proportion` lies in
`[0, 1]`, equals `ad_gaps / total_gaps` when `total_gaps > 0`, and is defined
to be `0` when `total_gaps = 0` (the division-by-zero guard; the classifier is
a total function, so no error is raised). -/
theorem c8_ad_gap_proportion_bounds (freq : List FreqRow) (adT : Nat) (adF : ℚ)
    (v : Verdict) (hv : v ∈ categorizeSubscriptionTypes freq adT adF) :
    0 ≤ v.ad_gap_proportion ∧ v.ad_gap_proportion ≤ 1 ∧
      (0 < v.total_gaps →
        v.ad_gap_proportion = (v.ad_like_gaps : ℚ) / (v.total_gaps : ℚ)) ∧
      (v.total_gaps = 0 → v.ad_gap_proportion = 0) := by
  obtain ⟨tv, -, rfl⟩ := mem_categorize.mp hv
  rw [mkVerdict_prop, mkVerdict_total, mkVerdict_ad]
  have hle : adGapsOf freq tv ≤ totalGapsOf freq tv := by
    have := adGaps_le_total freq tv
    omega
  by_cases hpos : 0 < totalGapsOf freq tv
  · have hdiv : adGapProportionOf freq tv =
        (adGapsOf freq tv : ℚ) / (totalGapsOf freq tv : ℚ) := by
      rw [adGapProportionOf, if_pos hpos, Rat.mkRat_eq_div]
      push_cast
      rfl
    refine ⟨?_, ?_, fun _ => hdiv, fun h0 => absurd h0 (by omega)⟩
    · rw [hdiv]
      positivity
    · rw [hdiv]
      rw [div_le_one (by exact_mod_cast hpos)]
      exact_mod_cast hle
  · have h0 : totalGapsOf freq tv = 0 := by omega
    have hprop : adGapProportionOf freq tv = 0 := by
      rw [adGapProportionOf, if_neg hpos]
    refine ⟨by rw [hprop], by rw [hprop]; norm_num, fun hc => absurd hc hpos, fun _ => hprop⟩

/-- **C8, witness.** -/
theorem c8_witness :
    0 ≤ (mkVerdict tieFreqTable 2 (mkRat 1 2) "t").ad_gap_proportion ∧
      (mkVerdict tieFreqTable 2 (mkRat 1 2) "t").ad_gap_proportion ≤ 1 ∧
      (0 < (mkVerdict tieFreqTable 2 (mkRat 1 2) "t").total_gaps →
        (mkVerdict tieFreqTable 2 (mkRat 1 2) "t").ad_gap_proportion =
          ((mkVerdict tieFreqTable 2 (mkRat 1 2) "t").ad_like_gaps : ℚ) /
            ((mkVerdict tieFreqTable 2 (mkRat 1 2) "t").total_gaps : ℚ)) ∧
      ((mkVerdict tieFreqTable 2 (mkRat 1 2) "t").total_gaps = 0 →
        (mkVerdict tieFreqTable 2 (mkRat 1 2) "t").ad_gap_proportion = 0) :=
  c8_ad_gap_proportion_bounds tieFreqTable 2 (mkRat 1 2) _ (by decide)

/-- **C10.** Every row the binner emits has `frequency ≥ 1` (only observed
`(device, gap_range)` combinations are counted), so every device appearing in
a binner-produced frequency table has `total_gaps ≥ 1` and the classifier's
`insufficient_data` branch can never fire on binner output. -/
theorem c10_insufficient_data_unreachable (gapDf : List GapRow) :
    (∀ r ∈ createGapFrequencyDf gapDf, 1 ≤ r.frequency) ∧
      (∀ (adT : Nat) (adF : ℚ) (v : Verdict),
        v ∈ categorizeSubscriptionTypes (createGapFrequencyDf gapDf) adT adF →
          v.subscription_type ≠ "insufficient_data") := by
  have hfreq : ∀ r ∈ createGapFrequencyDf gapDf, 1 ≤ r.frequency := by
    intro r hr
    simp only [createGapFrequencyDf] at hr
    obtain ⟨k, hk, hrk⟩ := List.mem_map.mp hr
    rw [List.mem_insertionSort, mem_uniqueList] at hk
    rw [← hrk]
    exact List.count_pos_iff.mpr hk
  refine ⟨hfreq, ?_⟩
  intro adT adF v hv
  obtain ⟨tv, htv, rfl⟩ := mem_categorize.mp hv
  rw [mem_uniqueList, List.mem_map] at htv
  obtain ⟨r, hr, hrtv⟩ := htv
  have hrtd : r ∈ tvRows (createGapFrequencyDf gapDf) tv :=
    List.mem_filter.mpr ⟨hr, by simp [hrtv]⟩
  have hmem : r.frequency ∈ (tvRows (createGapFrequencyDf gapDf) tv).map
      (fun r => r.frequency) :=
    List.mem_map.mpr ⟨r, hrtd, rfl⟩
  have htot : 1 ≤ totalGapsOf (createGapFrequencyDf gapDf) tv :=
    le_trans (hfreq r hr) (List.le_sum_of_mem hmem)
  rw [mkVerdict_stype, specDecision, if_neg (by omega)]
  split_ifs <;> decide

/-- A one-row gap table whose single 10-second gap survives binning. -/
def gapDfW : List GapRow :=
  [ ⟨"t_c", "t", "c", 0, 0, some 10⟩ ]

/-- **C10, witness.** -/
theorem c10_witness :
    1 ≤ (⟨"t", "0-15", 1⟩ : FreqRow).frequency ∧
      (mkVerdict (createGapFrequencyDf gapDfW) 3 (mkRat 6 10) "t").subscription_type ≠
        "insufficient_data" :=
  ⟨(c10_insufficient_data_unreachable gapDfW).1 _ (by decide),
   (c10_insufficient_data_unreachable gapDfW).2 3 (mkRat 6 10) _ (by decide)⟩

theorem filter_orderedInsert_freq (a : FreqRow) (l : List FreqRow) (f : Nat) :
    (List.orderedInsert freqGe a l).filter (fun r => r.frequency = f) =
      if a.frequency = f then a :: l.filter (fun r => r.frequency = f)
      else l.filter (fun r => r.frequency = f) := by
  induction l with
  | nil =>
    by_cases haf : a.frequency = f <;> simp [List.orderedInsert, List.filter_cons, haf]
  | cons b bs ih =>
    rw [List.orderedInsert]
    by_cases hab : freqGe a b
    · rw [if_pos hab]
      by_cases haf : a.frequency = f <;> by_cases hbf : b.frequency = f <;>
        simp [List.filter_cons, haf, hbf]
    · rw [if_neg hab]
      have hlt : a.frequency < b.frequency := by
        have := hab
        rw [freqGe] at this
        omega
      by_cases haf : a.frequency = f
      · have hbf : b.frequency ≠ f := by omega
        simp [List.filter_cons, ih, haf, hbf]
      · by_cases hbf : b.frequency = f <;> simp [List.filter_cons, ih, haf, hbf]

theorem filter_insertionSort_freq (l : List FreqRow) (f : Nat) :
    (List.insertionSort freqGe l).filter (fun r => r.frequency = f) =
      l.filter (fun r => r.frequency = f) := by
  induction l with
  | nil => rfl
  | cons a as ih =>
    rw [List.insertionSort, filter_orderedInsert_freq, List.filter_cons]
    by_cases haf : a.frequency = f <;> simp [haf, ih]

theorem mkVerdict_mcr (freq : List FreqRow) (adT : Nat) (adF : ℚ) (tv : String) :
    (mkVerdict freq adT adF tv).most_common_ranges =
      String.intercalate ", "
        ((((List.insertionSort freqGe (tvRows freq tv)).take 3).map
          (fun r => r.gap_range)).take 3) := rfl

/-- **C9.** For every verdict, `most_common_ranges` is the comma-join of the
labels of the first three rows of a list `srt` that is a permutation of the
device's rows, is sorted by non-increasing frequency, and is *stable*: for
every frequency value, the rows carrying it appear in `srt` in their original
(first-encountered) order.  At most 3 labels are emitted (exactly
`min 3 (#rows)`), and every row left out has frequency no larger than every
row selected — so the selection is "up to 3 of the highest-frequency labels,
descending, ties by first-encountered order", as claimed. -/
theorem c9_most_common_ranges_top3 (freq : List FreqRow) (adT : Nat) (adF : ℚ)
    (v : Verdict) (hv : v ∈ categorizeSubscriptionTypes freq adT adF) :
    ∃ srt : List FreqRow,
      srt.Perm (tvRows freq v.tv_id) ∧
      List.Sorted freqGe srt ∧
      (∀ f : Nat, srt.filter (fun r => r.frequency = f) =
        (tvRows freq v.tv_id).filter (fun r => r.frequency = f)) ∧
      v.most_common_ranges =
        String.intercalate ", " ((srt.take 3).map (fun r => r.gap_range)) ∧
      (srt.take 3).length = min 3 (tvRows freq v.tv_id).length ∧
      (∀ x ∈ srt.drop 3, ∀ y ∈ srt.take 3, x.frequency ≤ y.frequency) := by
  obtain ⟨tv, -, rfl⟩ := mem_categorize.mp hv
  simp only [mkVerdict_tv_id]
  refine ⟨List.insertionSort freqGe (tvRows freq tv),
    List.perm_insertionSort _ _, List.sorted_insertionSort _ _,
    fun f => filter_insertionSort_freq _ f, ?_, ?_, ?_⟩
  · rw [mkVerdict_mcr]
    congr 1
    apply List.take_of_length_le
    rw [List.length_map, List.length_take]
    omega
  · rw [List.length_take, List.length_insertionSort]
  · intro x hx y hy
    have hs : List.Pairwise freqGe (List.insertionSort freqGe (tvRows freq tv)) :=
      List.sorted_insertionSort _ _
    rw [← List.take_append_drop 3 (List.insertionSort freqGe (tvRows freq tv))] at hs
    exact (List.pairwise_append.mp hs).2.2 y hy x hx

/-- **C9, witness.**  On the tied table, the verdict joins
`"15-30, 60-75, 0-15"`: descending frequencies 5, 4, 2 with the frequency-2
tie broken in favour of the earlier row. -/
theorem c9_witness :
    ∃ srt : List FreqRow,
      srt.Perm (tvRows tieFreqTable
        (mkVerdict tieFreqTable 3 (mkRat 6 10) "t").tv_id) ∧
      List.Sorted freqGe srt ∧
      (∀ f : Nat, srt.filter (fun r => r.frequency = f) =
        (tvRows tieFreqTable
          (mkVerdict tieFreqTable 3 (mkRat 6 10) "t").tv_id).filter
            (fun r => r.frequency = f)) ∧
      (mkVerdict tieFreqTable 3 (mkRat 6 10) "t").most_common_ranges =
        String.intercalate ", " ((srt.take 3).map (fun r => r.gap_range)) ∧
      (srt.take 3).length = min 3 (tvRows tieFreqTable
        (mkVerdict tieFreqTable 3 (mkRat 6 10) "t").tv_id).length ∧
      (∀ x ∈ srt.drop 3, ∀ y ∈ srt.take 3, x.frequency ≤ y.frequency) :=
  c9_most_common_ranges_top3 tieFreqTable 3 (mkRat 6 10) _ (by decide)

theorem forall₂_mem_right {α β : Type} {R : α → β → Prop} :
    ∀ {l₁ : List α} {l₂ : List β}, List.Forall₂ R l₁ l₂ →
      ∀ {b : β}, b ∈ l₂ → ∃ a ∈ l₁, R a b
  | _, _, .nil, b, hb => by cases hb
  | _, _, .cons hab h, b, hb => by
    rcases List.mem_cons.mp hb with rfl | hb
    · exact ⟨_, List.mem_cons_self _ _, hab⟩
    · obtain ⟨a, ha, hR⟩ := forall₂_mem_right h hb
      exact ⟨a, List.mem_cons_of_mem _ ha, hR⟩

theorem forall₂_mem_left {α β : Type} {R : α → β → Prop} :
    ∀ {l₁ : List α} {l₂ : List β}, List.Forall₂ R l₁ l₂ →
      ∀ {a : α}, a ∈ l₁ → ∃ b ∈ l₂, R a b
  | _, _, .nil, a, ha => by cases ha
  | _, _, .cons hab h, a, ha => by
    rcases List.mem_cons.mp ha with rfl | ha
    · exact ⟨_, List.mem_cons_self _ _, hab⟩
    · obtain ⟨b, hb, hR⟩ := forall₂_mem_left h ha
      exact ⟨b, List.mem_cons_of_mem _ hb, hR⟩

theorem processGroups_forall₂ :
    ∀ {gs : List (List Session)} {outs : List (List GapRow)},
      processGroups gs = .ok outs →
        List.Forall₂ (fun g out => processGroup g = some out) gs outs
  | [], outs, h => by
    rw [processGroups] at h
    injection h with h
    subst h
    exact .nil
  | g :: gs, outs, h => by
    rw [processGroups] at h
    cases hpg : processGroup g with
    | none => rw [hpg] at h; cases h
    | some out =>
      rw [hpg] at h
      cases hrec : processGroups gs with
      | error e => rw [hrec] at h; cases h
      | ok outs' =>
        rw [hrec] at h
        injection h with h
        subst h
        exact .cons hpg (processGroups_forall₂ hrec)

theorem createGapAnalysisDf_ok {df : List Session} {rows : List GapRow}
    (h : createGapAnalysisDf df = .ok rows) :
    ∃ outs, processGroups (bigGroupsOf df) = .ok outs ∧ outs ≠ [] ∧
      rows = outs.flatten := by
  rw [createGapAnalysisDf] at h
  cases hpg : processGroups (bigGroupsOf df) with
  | error e => rw [hpg] at h; cases h
  | ok outs =>
    rw [hpg] at h
    cases outs with
    | nil => cases h
    | cons o os =>
      injection h with h
      exact ⟨o :: os, rfl, by simp, h.symm⟩

theorem processGroup_some_eq {g : List Session} {out : List GapRow}
    (h : processGroup g = some out) :
    (∀ s ∈ sortGroup g, (parseTs (pyStrip s.start_time)).isSome ∧
      (parseTs (pyStrip s.end_time)).isSome) ∧
    out = mkGapRows (sortGroup g)
      ((sortGroup g).map (fun s => (parseTs (pyStrip s.start_time)).getD 0))
      ((sortGroup g).map (fun s => (parseTs (pyStrip s.end_time)).getD 0)) none := by
  simp only [processGroup] at h
  cases hst : mapOpt (fun s => parseTs (pyStrip s.start_time)) (sortGroup g) with
  | none => rw [hst] at h; cases h
  | some starts =>
    rw [hst] at h
    cases hen : mapOpt (fun s => parseTs (pyStrip s.end_time)) (sortGroup g) with
    | none => rw [hen] at h; cases h
    | some ends =>
      rw [hen] at h
      injection h with h
      subst h
      obtain ⟨hsta, hstm⟩ := mapOpt_eq _ hst
      obtain ⟨hena, henm⟩ := mapOpt_eq _ hen
      exact ⟨fun s hs => ⟨hsta s hs, hena s hs⟩, by rw [← hstm 0, ← henm 0]⟩

theorem processGroup_mem {g : List Session} {out : List GapRow}
    (h : processGroup g = some out) (r : GapRow) (hr : r ∈ out) :
    ∃ s ∈ g, r.tv_id = s.tv_id ∧ r.tv_content_id = sessionKey s := by
  obtain ⟨-, rfl⟩ := processGroup_some_eq h
  obtain ⟨s, hs, h1, h2⟩ := mkGapRows_mem _ _ _ _ r hr
  rw [sortGroup] at hs
  exact ⟨s, (List.mem_insertionSort startLe).mp hs, h1, h2⟩

theorem mem_bigGroupsOf {df : List Session} {g : List Session}
    (hg : g ∈ bigGroupsOf df) :
    (∀ s ∈ g, s ∈ df) ∧ 1 < g.length ∧ ∃ k, g = groupOf df k := by
  rw [bigGroupsOf] at hg
  obtain ⟨hmem, hlen⟩ := List.mem_filter.mp hg
  obtain ⟨k, -, hk⟩ := List.mem_map.mp hmem
  refine ⟨?_, by simpa using hlen, k, hk.symm⟩
  intro s hs
  rw [← hk] at hs
  exact (List.mem_filter.mp hs).1

theorem createGapAnalysisDf_row_source {df : List Session} {rows : List GapRow}
    (h : createGapAnalysisDf df = .ok rows) (r : GapRow) (hr : r ∈ rows) :
    ∃ s ∈ df, r.tv_id = s.tv_id ∧ r.tv_content_id = sessionKey s := by
  obtain ⟨outs, hpg, -, rfl⟩ := createGapAnalysisDf_ok h
  rw [List.mem_flatten] at hr
  obtain ⟨out, hout, hrout⟩ := hr
  obtain ⟨g, hg, hpgg⟩ := forall₂_mem_right (processGroups_forall₂ hpg) hout
  obtain ⟨s, hs, h1, h2⟩ := processGroup_mem hpgg r hrout
  exact ⟨s, (mem_bigGroupsOf hg).1 s hs, h1, h2⟩

theorem createGapFrequencyDf_tv_source (gapDf : List GapRow) (r : FreqRow)
    (hr : r ∈ createGapFrequencyDf gapDf) :
    ∃ gr ∈ gapDf, r.tv_id = gr.tv_id := by
  simp only [createGapFrequencyDf] at hr
  obtain ⟨k, hk, hrk⟩ := List.mem_map.mp hr
  rw [List.mem_insertionSort, mem_uniqueList] at hk
  obtain ⟨p, hp, hpk⟩ := List.mem_filterMap.mp hk
  obtain ⟨gr, hgr, hgrp⟩ := List.mem_filterMap.mp hp
  cases hg : gr.gap_seconds with
  | none => rw [hg] at hgrp; cases hgrp
  | some g =>
    rw [hg] at hgrp
    injection hgrp with hgrp
    cases hc : cutIndex (binEdges (effectiveMaxGap
        ((gapDf.filterMap (fun r => r.gap_seconds.map (fun g => (r.tv_id, g)))).map
          (fun p => p.2)))) p.2 with
    | none => rw [hc] at hpk; cases hpk
    | some i =>
      rw [hc] at hpk
      injection hpk with hpk
      refine ⟨gr, hgr, ?_⟩
      rw [← hrk]
      show k.1 = gr.tv_id
      rw [← hpk, ← hgrp]

theorem categorize_tv_source {freq : List FreqRow} {adT : Nat} {adF : ℚ} {v : Verdict}
    (hv : v ∈ categorizeSubscriptionTypes freq adT adF) :
    ∃ r ∈ freq, v.tv_id = r.tv_id := by
  obtain ⟨tv, htv, rfl⟩ := mem_categorize.mp hv
  rw [mem_uniqueList, List.mem_map] at htv
  obtain ⟨r, hr, hrtv⟩ := htv
  exact ⟨r, hr, by rw [mkVerdict_tv_id, ← hrtv]⟩

/-- **C6.** Every session the device filter retains belongs to a device with
more than one session in the provider-filtered table; and a device with
exactly one session there never appears in the gap-analysis output, the
frequency table, or the verdict table of a successful run. -/
theorem c6_single_session_device_excluded (data : List Session) (service tv : String) :
    (∀ s ∈ retainedDf data service, 1 < tvCount data service s.tv_id) ∧
    (tvCount data service tv = 1 →
      ∀ (gaps : List GapRow) (freq : List FreqRow) (verdicts : List Verdict)
        (adT : Nat) (adF : ℚ),
        runPipeline data service adT adF = .ok (gaps, freq, verdicts) →
        (∀ r ∈ gaps, r.tv_id ≠ tv) ∧ (∀ r ∈ freq, r.tv_id ≠ tv) ∧
          (∀ v ∈ verdicts, v.tv_id ≠ tv)) := by
  constructor
  · intro s hs
    have := (List.mem_filter.mp hs).2
    simpa using this
  · intro h1 gaps freq verdicts adT adF hrun
    simp only [runPipeline] at hrun
    cases hga : createGapAnalysisDf (retainedDf data service) with
    | error e => rw [hga] at hrun; cases hrun
    | ok g =>
      rw [hga] at hrun
      injection hrun with hrun
      injection hrun with hg hrun
      injection hrun with hf hc
      subst hg
      subst hf
      subst hc
      have hgap : ∀ r ∈ g, r.tv_id ≠ tv := by
        intro r hr hcon
        obtain ⟨s, hs, h2, -⟩ := createGapAnalysisDf_row_source hga r hr
        have hcnt : 1 < tvCount data service s.tv_id := by
          have := (List.mem_filter.mp hs).2
          simpa using this
        rw [h2] at hcon
        rw [hcon] at hcnt
        omega
      refine ⟨hgap, ?_, ?_⟩
      · intro r hr hcon
        obtain ⟨gr, hgr, h2⟩ := createGapFrequencyDf_tv_source _ r hr
        exact hgap gr hgr (by rw [← h2, hcon])
      · intro v hv hcon
        obtain ⟨r, hr, h2⟩ := categorize_tv_source hv
        obtain ⟨gr, hgr, h3⟩ := createGapFrequencyDf_tv_source _ r hr
        exact hgap gr hgr (by rw [← h3, ← h2, hcon])

/-- **C6, witness.**  On `c6Data`, device `a` (one session) appears in none of
the three output tables of the successful run. -/
theorem c6_witness :
    (∀ s ∈ retainedDf c6Data "Netflix", 1 < tvCount c6Data "Netflix" s.tv_id) ∧
    ((∀ r ∈ c6Run.1, r.tv_id ≠ "a") ∧ (∀ r ∈ c6Run.2.1, r.tv_id ≠ "a") ∧
      (∀ v ∈ c6Run.2.2, v.tv_id ≠ "a")) :=
  ⟨(c6_single_session_device_excluded c6Data "Netflix" "a").1,
   (c6_single_session_device_excluded c6Data "Netflix" "a").2 (by decide)
     c6Run.1 c6Run.2.1 c6Run.2.2 3 (mkRat 6 10) (by decide)⟩

/-- **C5, counterexample.**  The claim says each group is sorted ascending by
`start_time` *chronologically*.  The source sorts by the raw string before
stripping, so a leading space reverses the order: on `whitespaceData` the code
emits the gap −90000 s (later session first), while the chronological
computation prescribed by the spec (`specProcessGroupChron`, identical except
for sorting by the parsed, trimmed timestamp) yields the gap +82800 s. -/
theorem c5_counterexample_sort_not_chronological :
    (createGapAnalysisDf whitespaceData).toOption.map
      (fun l => l.map (fun r => r.gap_seconds)) = some [none, some (-90000)] ∧
    (specProcessGroupChron (groupOf whitespaceData "tv1_c")).map
      (fun l => l.map (fun r => r.gap_seconds)) = some [none, some 82800] := by
  decide

theorem groupOf_key (df : List Session) (k : String) :
    ∀ s ∈ groupOf df k, sessionKey s = k := by
  intro s hs
  have := (List.mem_filter.mp hs).2
  simpa using this

theorem processGroups_flatten_filter (df : List Session) (ks : List String) :
    ∀ (outs : List (List GapRow)), ks.Nodup →
      processGroups ((ks.map (fun k' => groupOf df k')).filter
        (fun g => 1 < g.length)) = .ok outs →
      ∀ k : String,
        outs.flatten.filter (fun r => r.tv_content_id = k) =
          if k ∈ ks ∧ 1 < (groupOf df k).length
          then (processGroup (groupOf df k)).getD [] else [] := by
  induction ks with
  | nil =>
    intro outs _ h k
    rw [List.map_nil, List.filter_nil, processGroups] at h
    injection h with h
    subst h
    simp
  | cons k₀ ks ih =>
    intro outs hnd h k
    obtain ⟨hk₀, hnd'⟩ := List.nodup_cons.mp hnd
    rw [List.map_cons, List.filter_cons] at h
    by_cases hlen : 1 < (groupOf df k₀).length
    · rw [if_pos (by simpa using hlen)] at h
      rw [processGroups] at h
      cases hpg : processGroup (groupOf df k₀) with
      | none => rw [hpg] at h; cases h
      | some out₀ =>
        rw [hpg] at h
        cases hrec : processGroups ((ks.map (fun k' => groupOf df k')).filter
            (fun g => 1 < g.length)) with
        | error e => rw [hrec] at h; cases h
        | ok outs' =>
          rw [hrec] at h
          injection h with h
          subst h
          have hall : ∀ r ∈ out₀, r.tv_content_id = k₀ := by
            intro r hr
            obtain ⟨s, hs, -, h2⟩ := processGroup_mem hpg r hr
            rw [h2]
            exact groupOf_key df k₀ s hs
          rw [List.flatten_cons, List.filter_append, ih outs' hnd' hrec k]
          by_cases hkk : k = k₀
          · subst hkk
            rw [if_neg (fun hc => hk₀ hc.1),
              if_pos ⟨List.mem_cons_self _ _, hlen⟩, hpg, List.append_nil]
            refine List.filter_eq_self.mpr ?_
            intro r hr
            simp [hall r hr]
          · have hfil : out₀.filter (fun r => r.tv_content_id = k) = [] := by
              refine List.filter_eq_nil_iff.mpr ?_
              intro r hr
              simp only [decide_eq_true_eq]
              rw [hall r hr]
              exact fun hc => hkk hc.symm
            rw [hfil, List.nil_append]
            by_cases hmem : k ∈ ks ∧ 1 < (groupOf df k).length
            · rw [if_pos hmem, if_pos ⟨List.mem_cons_of_mem _ hmem.1, hmem.2⟩]
            · rw [if_neg hmem, if_neg]
              rintro ⟨hin, hl⟩
              rcases List.mem_cons.mp hin with rfl | hin
              · exact hkk rfl
              · exact hmem ⟨hin, hl⟩
    · rw [if_neg (by simpa using hlen)] at h
      rw [ih outs hnd' h k]
      by_cases hkk : k = k₀
      · subst hkk
        rw [if_neg (fun hc => hk₀ hc.1), if_neg (fun hc => hlen hc.2)]
      · by_cases hmem : k ∈ ks ∧ 1 < (groupOf df k).length
        · rw [if_pos hmem, if_pos ⟨List.mem_cons_of_mem _ hmem.1, hmem.2⟩]
        · rw [if_neg hmem, if_neg]
          rintro ⟨hin, hl⟩
          rcases List.mem_cons.mp hin with rfl | hin
          · exact hkk rfl
          · exact hmem ⟨hin, hl⟩

/-- **C5, amended.**  For every successful gap-analysis run and every group
key: a `(device, content)` group with at most one row contributes no gap
record; a group with more than one row contributes exactly the rows obtained
by sorting the group ascending by the *raw* `start_time` string (Python's
string order — chronological only insofar as the raw strings happen to compare
like their timestamps; stripping happens after sorting), then stripping and
parsing both timestamp columns, and giving the first row a null gap and every
later row `gap_seconds = start_time[i] − end_time[i−1]`.  Every timestamp of
every such group parses (a parse failure would have made the whole run return
an error instead of `.ok`). -/
theorem c5_gap_calculator_per_group (df : List Session) (rows : List GapRow)
    (k : String) (h : createGapAnalysisDf df = .ok rows) :
    ((groupOf df k).length ≤ 1 →
      rows.filter (fun r => r.tv_content_id = k) = []) ∧
    (1 < (groupOf df k).length →
      ∃ srt : List Session,
        srt.Perm (groupOf df k) ∧ List.Sorted startLe srt ∧
        (∀ s ∈ srt, (parseTs (pyStrip s.start_time)).isSome ∧
          (parseTs (pyStrip s.end_time)).isSome) ∧
        rows.filter (fun r => r.tv_content_id = k) =
          mkGapRows srt
            (srt.map (fun s => (parseTs (pyStrip s.start_time)).getD 0))
            (srt.map (fun s => (parseTs (pyStrip s.end_time)).getD 0)) none) := by
  obtain ⟨outs, hpg, -, rfl⟩ := createGapAnalysisDf_ok h
  rw [bigGroupsOf] at hpg
  have hmain := processGroups_flatten_filter df (uniqueList (df.map sessionKey)) outs
    (nodup_uniqueList _) hpg
  constructor
  · intro hsmall
    rw [hmain k, if_neg]
    rintro ⟨-, hlen⟩
    omega
  · intro hbig
    have hk : k ∈ uniqueList (df.map sessionKey) := by
      rw [mem_uniqueList]
      have hne : groupOf df k ≠ [] := by
        intro hnil
        rw [hnil] at hbig
        simp at hbig
      obtain ⟨s, hs⟩ := List.exists_mem_of_ne_nil _ hne
      have hm := List.mem_filter.mp hs
      refine List.mem_map.mpr ⟨s, hm.1, ?_⟩
      simpa using hm.2
    have hgmem : groupOf df k ∈ ((uniqueList (df.map sessionKey)).map
        (fun k' => groupOf df k')).filter (fun g => 1 < g.length) :=
      List.mem_filter.mpr ⟨List.mem_map.mpr ⟨k, hk, rfl⟩, by simpa using hbig⟩
    obtain ⟨out, -, hout⟩ := forall₂_mem_left (processGroups_forall₂ hpg) hgmem
    obtain ⟨hparse, hEq⟩ := processGroup_some_eq hout
    refine ⟨sortGroup (groupOf df k), ?_, ?_, hparse, ?_⟩
    · exact List.perm_insertionSort startLe _
    · exact List.sorted_insertionSort startLe _
    · rw [hmain k, if_pos ⟨hk, hbig⟩, hout]
      exact hEq

/-- **C5, witness.**  Scenario A's single group of two sessions. -/
theorem c5_witness :
    ((groupOf scenarioA "tv1_c1").length ≤ 1 →
      scenarioARows.filter (fun r => r.tv_content_id = "tv1_c1") = []) ∧
    (1 < (groupOf scenarioA "tv1_c1").length →
      ∃ srt : List Session,
        srt.Perm (groupOf scenarioA "tv1_c1") ∧ List.Sorted startLe srt ∧
        (∀ s ∈ srt, (parseTs (pyStrip s.start_time)).isSome ∧
          (parseTs (pyStrip s.end_time)).isSome) ∧
        scenarioARows.filter (fun r => r.tv_content_id = "tv1_c1") =
          mkGapRows srt
            (srt.map (fun s => (parseTs (pyStrip s.start_time)).getD 0))
            (srt.map (fun s => (parseTs (pyStrip s.end_time)).getD 0)) none) :=
  c5_gap_calculator_per_group scenarioA scenarioARows "tv1_c1" (by decide)
